import Mathlib

/-!
Verification of the arduinoChipTemperature library (src/ChipTemperature.h,
src/ChipTemperature.cpp) against its natural-language specification.

Shallow embedding conventions:
* `uint16_t` values are `Nat` (bounds `< 65536` carried as hypotheses where needed);
  the C cast `(uint16_t)x` on a signed value is `uint16Cast : Int → Nat`.
* C `int`/`long` arithmetic is `Int`; C integer division (truncation toward
  zero) is `Int.tdiv`, matching AVR-GCC semantics.
* 32-bit `long` overflow questions are modelled with an explicit `wrap32`.
-/

/-- The C cast `(uint16_t)x` of a signed integer: reduction modulo 2^16
(Lean's `%` on `Int` is `emod`, whose result is non-negative here). -/
def uint16Cast (x : Int) : Nat := (x % 65536).toNat

/-- `CHIPTEMP_CELSIUS_ZERO` from ChipTemperature.h. -/
def CHIPTEMP_CELSIUS_ZERO : Int := 273

/-- `CHIPTEMP_FAHRENHEIT_0_C` from ChipTemperature.h. -/
def CHIPTEMP_FAHRENHEIT_0_C : Int := 32

/-- `CHIPTEMP_FAHRENHEIT_NUM` from ChipTemperature.h. -/
def CHIPTEMP_FAHRENHEIT_NUM : Int := 5

/-- `CHIPTEMP_FAHRENHEIT_DENOM` from ChipTemperature.h. -/
def CHIPTEMP_FAHRENHEIT_DENOM : Int := 9

/-- `struct ChipTempCalPointK`: a Kelvin calibration point, two `uint16_t`
fields `_tempK` and `_hwReading` (stored unchanged by its constructor). -/
structure ChipTempCalPointK where
  _tempK : Nat
  _hwReading : Nat
deriving DecidableEq

/-- Both fields of a calibration point are `uint16_t` values. -/
def ChipTempCalPointK.Wf (p : ChipTempCalPointK) : Prop :=
  p._tempK < 65536 ∧ p._hwReading < 65536

/-- The `ChipTempCalPointC` constructor: Celsius reference temperature
converted to Kelvin by `(uint16_t)(tempC + CHIPTEMP_CELSIUS_ZERO)`. -/
def ChipTempCalPointC.make (tempC : Int) (hwReading : Nat) : ChipTempCalPointK :=
  ⟨uint16Cast (tempC + CHIPTEMP_CELSIUS_ZERO), hwReading⟩

/-- The `ChipTempCalPointF` constructor: Fahrenheit reference temperature
converted to Kelvin by
`(uint16_t)((((tempF - 32) * 5) / 9) + 273)` with C truncating division. -/
def ChipTempCalPointF.make (tempF : Int) (hwReading : Nat) : ChipTempCalPointK :=
  ⟨uint16Cast ((((tempF - CHIPTEMP_FAHRENHEIT_0_C)
        * CHIPTEMP_FAHRENHEIT_NUM).tdiv CHIPTEMP_FAHRENHEIT_DENOM)
      + CHIPTEMP_CELSIUS_ZERO),
    hwReading⟩

/-- `kelvinToCelsius` from ChipTemperature.h:
`(int)kelvin - CHIPTEMP_CELSIUS_ZERO`. -/
def kelvinToCelsius (kelvin : Nat) : Int := (kelvin : Int) - CHIPTEMP_CELSIUS_ZERO

/-- `celsiusToKelvin` from ChipTemperature.h:
`(uint16_t)(celsius + CHIPTEMP_CELSIUS_ZERO)`. -/
def celsiusToKelvin (celsius : Int) : Nat := uint16Cast (celsius + CHIPTEMP_CELSIUS_ZERO)

/-- `celsiusToFahrenheit` from ChipTemperature.h:
`(celsius * CHIPTEMP_FAHRENHEIT_NUM) / CHIPTEMP_FAHRENHEIT_DENOM
 + CHIPTEMP_FAHRENHEIT_0_C`, i.e. `celsius * 5 / 9 + 32` with C division. -/
def celsiusToFahrenheit (celsius : Int) : Int :=
  (celsius * CHIPTEMP_FAHRENHEIT_NUM).tdiv CHIPTEMP_FAHRENHEIT_DENOM
    + CHIPTEMP_FAHRENHEIT_0_C

/-- `CHIPTEMP_SAMPLES_FOR_AVG` from ChipTemperature.h. -/
def CHIPTEMP_SAMPLES_FOR_AVG : Nat := 5

/-- The body of `ChipTemperature::getK()` (ChipTemperature.h lines 146-154)
with the call `getRaw()` abstracted as the argument `raw`:
`(uint16_t)(((((long)raw - (long)_calPoint1._hwReading)
  * ((long)_calPoint2._tempK - (long)_calPoint1._tempK))
  / ((long)_calPoint2._hwReading - (long)_calPoint1._hwReading))
  + (long)_calPoint1._tempK)`. -/
def getKofRaw (p1 p2 : ChipTempCalPointK) (raw : Nat) : Nat :=
  uint16Cast (((((raw : Int) - (p1._hwReading : Int))
        * ((p2._tempK : Int) - (p1._tempK : Int))).tdiv
      ((p2._hwReading : Int) - (p1._hwReading : Int)))
    + (p1._tempK : Int))

/-- State of a `ChipTemperature` object.  The header declares the fields
`_calPoint1`, `_calPoint2` and `_samples[CHIPTEMP_SAMPLES_FOR_AVG]`.
Modelled from the spec: the write position of `loop()` is `tickCount mod N`
(the body of `loop()` is not under src/), so the model carries the tick
count explicitly as `_tickCount`. -/
structure ChipTemperature where
  _calPoint1 : ChipTempCalPointK
  _calPoint2 : ChipTempCalPointK
  _samples : List Nat
  _tickCount : Nat

/-- Modelled from the spec: `_resetObject()` / initial state — all sample
slots zero ("Initial state: all slots zero"), no ticks yet; the constructor
bodies are not under src/. -/
def ChipTemperature.mkCalibrated (p1 p2 : ChipTempCalPointK) : ChipTemperature :=
  ⟨p1, p2, List.replicate CHIPTEMP_SAMPLES_FOR_AVG 0, 0⟩

/-- Modelled from the spec: the no-argument constructor "degenerates to
identity calibration (raw value reported unchanged)"; its body is not under
src/.  The identity calibration is stored as the points (0,0) and (1,1),
for which the interpolation line is the identity map. -/
def ChipTemperature.mkUncalibrated : ChipTemperature :=
  ⟨⟨0, 0⟩, ⟨1, 1⟩, List.replicate CHIPTEMP_SAMPLES_FOR_AVG 0, 0⟩

/-- Modelled from the spec: `loop()` (body not under src/) acquires one
sample and inserts it into the ring buffer "overwriting the slot that is
oldest (position = tickCount mod N)".  The acquired hardware sample is
passed as the argument. -/
def ChipTemperature.loop (ct : ChipTemperature) (sample : Nat) : ChipTemperature :=
  ⟨ct._calPoint1, ct._calPoint2,
    ct._samples.set (ct._tickCount % CHIPTEMP_SAMPLES_FOR_AVG) sample,
    ct._tickCount + 1⟩

/-- A sequence of `loop()` calls with the given hardware samples. -/
def applyLoops (ct : ChipTemperature) (samples : List Nat) : ChipTemperature :=
  samples.foldl ChipTemperature.loop ct

/-- Modelled from the spec: `getRaw()` (body not under src/) returns the
"arithmetic mean (integer, truncating) of all N buffer slots". -/
def ChipTemperature.getRaw (ct : ChipTemperature) : Nat :=
  ct._samples.sum / CHIPTEMP_SAMPLES_FOR_AVG

/-- `ChipTemperature::getK()`: the interpolation body applied to `getRaw()`. -/
def ChipTemperature.getK (ct : ChipTemperature) : Nat :=
  getKofRaw ct._calPoint1 ct._calPoint2 ct.getRaw

/-- Truncation toward zero of a rational number — the rounding mode of C
integer division. -/
def ratTrunc (q : ℚ) : Int := if 0 ≤ q then ⌊q⌋ else -⌊-q⌋

/-- Formalisation of claim C1's own wording (for refutation): getK as
`round((rawAverage - P1.hw) * (P2.ref - P1.ref) / (P2.hw - P1.hw) + P1.ref)`
with exact rational arithmetic and rounding to nearest. -/
def getKroundSpec (p1 p2 : ChipTempCalPointK) (raw : Nat) : Nat :=
  uint16Cast (round ((((raw : ℚ) - (p1._hwReading : ℚ))
        * ((p2._tempK : ℚ) - (p1._tempK : ℚ)))
      / ((p2._hwReading : ℚ) - (p1._hwReading : ℚ)) + (p1._tempK : ℚ)))

-- Helper lemmas

theorem uint16Cast_coe (n : Nat) (h : n < 65536) : uint16Cast (n : Int) = n := by
  unfold uint16Cast
  rw [Int.emod_eq_of_lt (by omega) (by omega)]
  simp

theorem ratTrunc_neg (q : ℚ) : ratTrunc (-q) = -ratTrunc q := by
  rcases lt_trichotomy q 0 with h | h | h
  · have h1 : (0 : ℚ) ≤ -q := by linarith
    have h2 : ¬ (0 : ℚ) ≤ q := not_le.2 h
    simp [ratTrunc, h1, h2]
  · subst h; simp [ratTrunc]
  · have h1 : ¬ (0 : ℚ) ≤ -q ∨ q = 0 := by
      rcases eq_or_lt_of_le (le_of_lt h) with h' | h'
      · exact Or.inr h'.symm
      · exact Or.inl (not_le.2 (by linarith))
    rcases h1 with h1 | h1
    · simp [ratTrunc, h1, le_of_lt h]
    · simp [ratTrunc, h1]

theorem ratTrunc_nonneg_div (m k : Nat) :
    ratTrunc ((m : ℚ) / (k : ℚ)) = ((m / k : Nat) : Int) := by
  have hq : (0 : ℚ) ≤ (m : ℚ) / (k : ℚ) :=
    div_nonneg (by positivity) (by positivity)
  rw [ratTrunc, if_pos hq]
  exact_mod_cast Rat.floor_natCast_div_natCast m k

/-- C truncating division agrees with truncation toward zero of the exact
rational quotient (both conventions send division by zero to zero). -/
theorem tdiv_eq_ratTrunc (n d : Int) :
    n.tdiv d = ratTrunc ((n : ℚ) / (d : ℚ)) := by
  have key : ∀ a b : Nat,
      (a : Int).tdiv (b : Int) = ratTrunc (((a : Int) : ℚ) / ((b : Int) : ℚ)) := by
    intro a b
    have c1 : ((a : Int) : ℚ) = (a : ℚ) := by norm_cast
    have c2 : ((b : Int) : ℚ) = (b : ℚ) := by norm_cast
    rw [c1, c2, ← Int.ofNat_tdiv, ratTrunc_nonneg_div]
  rcases Int.natAbs_eq n with hn | hn <;> rcases Int.natAbs_eq d with hd | hd <;>
    rw [hn, hd]
  · exact key _ _
  · rw [Int.tdiv_neg]
    simp only [Int.cast_neg]
    rw [div_neg, ratTrunc_neg, key]
  · rw [Int.neg_tdiv]
    simp only [Int.cast_neg]
    rw [neg_div, ratTrunc_neg, key]
  · rw [Int.neg_tdiv_neg]
    simp only [Int.cast_neg]
    rw [neg_div_neg_eq, key]

-- Claim C1

/-- C1 counterexample: the claim says getK returns
`round((rawAverage - P1.hw) * (P2.ref - P1.ref) / (P2.hw - P1.hw) + P1.ref)`.
With points (273,300), (463,400) and raw average 301 the exact value is
274.9: the round formula gives 275, but the code truncates the quotient
toward zero and returns 274. -/
theorem getK_round_counterexample :
    getKofRaw ⟨273, 300⟩ ⟨463, 400⟩ 301 ≠ getKroundSpec ⟨273, 300⟩ ⟨463, 400⟩ 301 := by
  have h : ((((301 : Nat) : ℚ) - ((300 : Nat) : ℚ)) * (((463 : Nat) : ℚ) - ((273 : Nat) : ℚ)))
      / (((400 : Nat) : ℚ) - ((300 : Nat) : ℚ)) + ((273 : Nat) : ℚ) = 2749 / 10 := by
    norm_num
  have hr : round ((2749 : ℚ) / 10) = 275 := by
    rw [round_eq, Int.floor_eq_iff]
    constructor <;> norm_num
  have hs : getKroundSpec ⟨273, 300⟩ ⟨463, 400⟩ 301 = 275 := by
    unfold getKroundSpec
    rw [h, hr]
    decide
  rw [hs]
  decide

/-- C1 (amended): for every calibrated tracker whose two calibration points
have distinct hardware readings, getK returns
`(rawAverage - P1.hw) * (P2.ref - P1.ref) / (P2.hw - P1.hw) + P1.ref`
reduced to uint16, where the division truncates toward zero (C semantics),
not rounding to nearest; in particular the quoted example (points (273,300)
and (373,400), raw average 350, result 323) holds, the division there being
exact. -/
theorem getK_trunc_interpolation (p1 p2 : ChipTempCalPointK) (raw : Nat)
    (_hne : p1._hwReading ≠ p2._hwReading) :
    getKofRaw p1 p2 raw
      = uint16Cast (ratTrunc ((((raw : ℚ) - (p1._hwReading : ℚ))
            * ((p2._tempK : ℚ) - (p1._tempK : ℚ)))
          / ((p2._hwReading : ℚ) - (p1._hwReading : ℚ))) + (p1._tempK : Int)) := by
  unfold getKofRaw
  congr 2
  rw [tdiv_eq_ratTrunc]
  congr 1
  push_cast
  ring

/-- Witness for C1: the amended theorem at the spec's own example, where the
result is 323. -/
theorem getK_trunc_interpolation_witness :
    (300 : Nat) ≠ 400 ∧
    getKofRaw ⟨273, 300⟩ ⟨373, 400⟩ 350
      = uint16Cast (ratTrunc (((((350 : Nat) : ℚ) - ((300 : Nat) : ℚ))
            * (((373 : Nat) : ℚ) - ((273 : Nat) : ℚ)))
          / (((400 : Nat) : ℚ) - ((300 : Nat) : ℚ))) + ((273 : Nat) : Int)) ∧
    getKofRaw ⟨273, 300⟩ ⟨373, 400⟩ 350 = 323 :=
  ⟨by decide, getK_trunc_interpolation ⟨273, 300⟩ ⟨373, 400⟩ 350 (by decide), by decide⟩

-- Claim C2

/-- C2 counterexample: swapping the calibration points changes the result.
With points (273,300) and (374,400) and raw average 301, the original order
returns 274 but the swapped order returns 275 (truncation toward zero is not
invariant under the simultaneous sign flip of numerator and denominator when
the division is inexact). -/
theorem getK_swap_counterexample :
    getKofRaw ⟨273, 300⟩ ⟨374, 400⟩ 301 ≠ getKofRaw ⟨374, 400⟩ ⟨273, 300⟩ 301 := by
  decide

/-- C2 (amended): for calibration points with distinct hardware readings,
swapping the two points in the constructor call produces the identical getK
result whenever the interpolation division is exact, i.e. whenever
`(P2.hw - P1.hw)` divides `(rawAverage - P1.hw) * (P2.ref - P1.ref)`; with
an inexact division the two orders can differ (see the counterexample). -/
theorem getK_swap_invariant_of_exact (p1 p2 : ChipTempCalPointK) (raw : Nat)
    (hne : p1._hwReading ≠ p2._hwReading)
    (hdvd : ((p2._hwReading : Int) - (p1._hwReading : Int))
      ∣ (((raw : Int) - (p1._hwReading : Int)) * ((p2._tempK : Int) - (p1._tempK : Int)))) :
    getKofRaw p1 p2 raw = getKofRaw p2 p1 raw := by
  obtain ⟨k, hk⟩ := hdvd
  have hd : ((p2._hwReading : Int) - (p1._hwReading : Int)) ≠ 0 := by omega
  have hd2 : ((p1._hwReading : Int) - (p2._hwReading : Int)) ≠ 0 := by omega
  have hnum : ((raw : Int) - (p2._hwReading : Int)) * ((p1._tempK : Int) - (p2._tempK : Int))
      = ((p1._hwReading : Int) - (p2._hwReading : Int))
        * (k - ((p2._tempK : Int) - (p1._tempK : Int))) := by
    linear_combination -hk
  unfold getKofRaw
  rw [hk, Int.mul_tdiv_cancel_left _ hd, hnum, Int.mul_tdiv_cancel_left _ hd2]
  congr 1
  ring

/-- Witness for C2: exact-division instance (points (273,300), (373,400),
raw average 350). -/
theorem getK_swap_invariant_witness :
    ((300 : Nat) ≠ 400 ∧ (((400 : Nat) : Int) - ((300 : Nat) : Int))
      ∣ ((((350 : Nat) : Int) - ((300 : Nat) : Int))
          * (((373 : Nat) : Int) - ((273 : Nat) : Int)))) ∧
    getKofRaw ⟨273, 300⟩ ⟨373, 400⟩ 350 = getKofRaw ⟨373, 400⟩ ⟨273, 300⟩ 350 :=
  ⟨⟨by decide, ⟨50, by decide⟩⟩,
    getK_swap_invariant_of_exact ⟨273, 300⟩ ⟨373, 400⟩ 350 (by decide) ⟨50, by decide⟩⟩

-- Claim C3

/-- C3 counterexample: constructing with two calibration points that share
the hardware reading 500 is not rejected — the state is built as usual — and
a subsequent read silently returns a value: getK evaluates its unguarded
division with denominator zero (undefined behavior in C; zero in this
embedding) and yields P1's reference temperature 300, both on the freshly
constructed tracker and at an arbitrary raw average such as 700. -/
theorem getK_equal_points_counterexample :
    (ChipTemperature.mkCalibrated ⟨300, 500⟩ ⟨310, 500⟩).getK = 300 ∧
    getKofRaw ⟨300, 500⟩ ⟨310, 500⟩ 700 = 300 := by
  constructor <;> decide

/-- C3 (amended): construction with two calibration points of equal hardware
readings is not rejected and produces no poisoned state (the class stores
only the two points and the sample buffer, with no validity flag); getK then
performs its division with denominator `P2.hw - P1.hw = 0` — undefined
behavior in C.  Under this embedding's division-by-zero-is-zero convention
every read silently returns P1's reference temperature reduced to uint16. -/
theorem getK_equal_points_silent (p1 p2 : ChipTempCalPointK) (raw : Nat)
    (heq : p1._hwReading = p2._hwReading) (ht : p1._tempK < 65536) :
    getKofRaw p1 p2 raw = p1._tempK := by
  unfold getKofRaw
  rw [heq, sub_self, Int.tdiv_zero, zero_add]
  exact uint16Cast_coe _ ht

/-- Witness for C3: the amended theorem at points (300,500), (310,500) and
raw average 700. -/
theorem getK_equal_points_silent_witness :
    ((500 : Nat) = 500 ∧ (300 : Nat) < 65536) ∧
    getKofRaw ⟨300, 500⟩ ⟨310, 500⟩ 700 = 300 :=
  ⟨⟨rfl, by decide⟩, getK_equal_points_silent ⟨300, 500⟩ ⟨310, 500⟩ 700 rfl (by decide)⟩

-- Claim C4

/-- C4: for every two-point calibration with distinct hardware readings (in
either supply order, since both orders are instances of the quantifier),
getK returns exactly P1's reference temperature when the raw average equals
P1's hardware reading, and exactly P2's reference temperature when it equals
P2's hardware reading. -/
theorem getK_exact_at_calibration_points (p1 p2 : ChipTempCalPointK)
    (hne : p1._hwReading ≠ p2._hwReading)
    (ht1 : p1._tempK < 65536) (ht2 : p2._tempK < 65536) :
    getKofRaw p1 p2 p1._hwReading = p1._tempK ∧
    getKofRaw p1 p2 p2._hwReading = p2._tempK := by
  have hd : ((p2._hwReading : Int) - (p1._hwReading : Int)) ≠ 0 := by omega
  constructor
  · unfold getKofRaw
    rw [sub_self, zero_mul, Int.zero_tdiv, zero_add]
    exact uint16Cast_coe _ ht1
  · unfold getKofRaw
    rw [Int.mul_tdiv_cancel_left _ hd]
    rw [show ((p2._tempK : Int) - (p1._tempK : Int)) + (p1._tempK : Int)
      = (p2._tempK : Int) by ring]
    exact uint16Cast_coe _ ht2

/-- Witness for C4: the calibration (273,300), (373,400). -/
theorem getK_exact_at_calibration_points_witness :
    ((300 : Nat) ≠ 400 ∧ (273 : Nat) < 65536 ∧ (373 : Nat) < 65536) ∧
    getKofRaw ⟨273, 300⟩ ⟨373, 400⟩ 300 = 273 ∧
    getKofRaw ⟨273, 300⟩ ⟨373, 400⟩ 400 = 373 :=
  ⟨⟨by decide, by decide, by decide⟩,
    getK_exact_at_calibration_points ⟨273, 300⟩ ⟨373, 400⟩ (by decide) (by decide) (by decide)⟩

-- Claim C7

/-- C7: the claim states celsiusToFahrenheit computes `c * 9/5 + 32` (0 to
32, 100 to 212) as the inverse of the Fahrenheit-to-Kelvin transform.  The
code instead computes `c * 5/9 + 32` (the NUM/DENOM factors are used
un-inverted), mapping 100 °C to 87, while the Fahrenheit calibration-point
constructor correctly maps 212 °F to 373 K — so the conversion is not the
inverse of that transform.  This theorem evaluates the code at the failing
input. -/
theorem celsiusToFahrenheit_at_failing_input :
    celsiusToFahrenheit 100 = 87 ∧ celsiusToFahrenheit 0 = 32 ∧
    ChipTempCalPointF.make 212 400 = ⟨373, 400⟩ := by
  refine ⟨by decide, by decide, ?_⟩
  decide

-- Claim C10

/-- C10: the Kelvin/Celsius conversions are mutually inverse on the
representable ranges: for every Celsius value with `0 ≤ c + 273 < 2^16`,
`kelvinToCelsius (celsiusToKelvin c) = c`, and for every uint16 Kelvin value
`celsiusToKelvin (kelvinToCelsius k) = k`. -/
theorem kelvin_celsius_roundtrip (c : Int) (k : Nat)
    (hc0 : 0 ≤ c + 273) (hc1 : c + 273 < 65536) (hk : k < 65536) :
    kelvinToCelsius (celsiusToKelvin c) = c ∧
    celsiusToKelvin (kelvinToCelsius k) = k := by
  constructor
  · unfold kelvinToCelsius celsiusToKelvin CHIPTEMP_CELSIUS_ZERO uint16Cast
    rw [Int.emod_eq_of_lt hc0 (by omega)]
    omega
  · unfold kelvinToCelsius celsiusToKelvin CHIPTEMP_CELSIUS_ZERO
    rw [show (k : Int) - 273 + 273 = (k : Int) by ring]
    exact uint16Cast_coe _ hk

/-- Witness for C10: Celsius 20 and Kelvin 300. -/
theorem kelvin_celsius_roundtrip_witness :
    ((0 : Int) ≤ 20 + 273 ∧ (20 : Int) + 273 < 65536 ∧ (300 : Nat) < 65536) ∧
    kelvinToCelsius (celsiusToKelvin 20) = 20 ∧
    celsiusToKelvin (kelvinToCelsius 300) = 300 :=
  ⟨⟨by decide, by decide, by decide⟩,
    kelvin_celsius_roundtrip 20 300 (by decide) (by decide) (by decide)⟩

-- Ring-buffer helper lemmas (claim C5)

theorem exists_five_elems (M : List Nat) (h : M.length = 5) :
    ∃ a b c d e, M = [a, b, c, d, e] := by
  match M with
  | [a, b, c, d, e] => exact ⟨a, b, c, d, e, rfl⟩
  | [] | [_] | [_, _] | [_, _, _] | [_, _, _, _] => simp at h
  | _ :: _ :: _ :: _ :: _ :: _ :: _ => simp at h

theorem applyLoops_append (ct : ChipTemperature) (A B : List Nat) :
    applyLoops ct (A ++ B) = applyLoops (applyLoops ct A) B := by
  unfold applyLoops
  exact List.foldl_append _ _ _ _

theorem applyLoops_samples_length (ct : ChipTemperature) (L : List Nat) :
    (applyLoops ct L)._samples.length = ct._samples.length := by
  induction L generalizing ct with
  | nil => rfl
  | cons x xs ih =>
    show (applyLoops (ct.loop x) xs)._samples.length = _
    rw [ih]
    simp [ChipTemperature.loop]

theorem applyLoops_five_sum (ct : ChipTemperature) (b0 b1 b2 b3 b4 : Nat)
    (h : ct._samples.length = 5) :
    (applyLoops ct [b0, b1, b2, b3, b4])._samples.sum = b0 + b1 + b2 + b3 + b4 := by
  obtain ⟨p1, p2, M, t⟩ := ct
  obtain ⟨x0, x1, x2, x3, x4, hM⟩ := exists_five_elems M h
  subst hM
  have ht : t % 5 = 0 ∨ t % 5 = 1 ∨ t % 5 = 2 ∨ t % 5 = 3 ∨ t % 5 = 4 := by omega
  have e1 : (t + 1) % 5 = (t % 5 + 1) % 5 := by omega
  have e2 : (t + 2) % 5 = (t % 5 + 2) % 5 := by omega
  have e3 : (t + 3) % 5 = (t % 5 + 3) % 5 := by omega
  have e4 : (t + 4) % 5 = (t % 5 + 4) % 5 := by omega
  rcases ht with h5 | h5 | h5 | h5 | h5 <;>
    simp [applyLoops, ChipTemperature.loop, CHIPTEMP_SAMPLES_FOR_AVG,
      e1, e2, e3, e4, h5, List.set] <;>
    omega

-- Claim C5

/-- C5: each tick writes its sample at buffer slot `tickCount mod 5`,
overwriting the oldest entry; hence for every run of at least N = 5 ticks
(from a freshly constructed tracker), getRaw is the truncated mean of
exactly the 5 most recent samples — samples older than the last 5 have been
overwritten and do not contribute. -/
theorem ring_buffer_last_five (p1 p2 : ChipTempCalPointK) (L : List Nat)
    (h : 5 ≤ L.length) :
    (applyLoops (ChipTemperature.mkCalibrated p1 p2) L).getRaw
      = (L.drop (L.length - 5)).sum / 5 := by
  have hdlen : (L.drop (L.length - 5)).length = 5 := by
    rw [List.length_drop]
    omega
  obtain ⟨b0, b1, b2, b3, b4, hB⟩ := exists_five_elems _ hdlen
  have hmidlen : (applyLoops (ChipTemperature.mkCalibrated p1 p2)
      (L.take (L.length - 5)))._samples.length = 5 := by
    rw [applyLoops_samples_length]
    simp [ChipTemperature.mkCalibrated, CHIPTEMP_SAMPLES_FOR_AVG]
  conv_lhs => rw [← List.take_append_drop (L.length - 5) L]
  rw [applyLoops_append]
  unfold ChipTemperature.getRaw
  rw [hB, applyLoops_five_sum _ _ _ _ _ _ hmidlen]
  simp [CHIPTEMP_SAMPLES_FOR_AVG]
  omega

/-- Witness for C5: the spec's example — ticks [10, 12, 11, 13, 9, 100]
leave the last five samples [12, 11, 13, 9, 100], whose truncated mean is
29. -/
theorem ring_buffer_last_five_witness :
    5 ≤ ([10, 12, 11, 13, 9, 100] : List Nat).length ∧
    (applyLoops (ChipTemperature.mkCalibrated ⟨273, 300⟩ ⟨373, 400⟩)
        [10, 12, 11, 13, 9, 100]).getRaw
      = (([10, 12, 11, 13, 9, 100] : List Nat).drop
          (([10, 12, 11, 13, 9, 100] : List Nat).length - 5)).sum / 5 ∧
    (applyLoops (ChipTemperature.mkCalibrated ⟨273, 300⟩ ⟨373, 400⟩)
        [10, 12, 11, 13, 9, 100]).getRaw = 29 :=
  ⟨by decide,
    ring_buffer_last_five ⟨273, 300⟩ ⟨373, 400⟩ [10, 12, 11, 13, 9, 100] (by decide),
    by decide⟩

-- Claim C6

/-- States reachable from the no-argument (uncalibrated) constructor by
`loop()` calls with arbitrary uint16 hardware samples. -/
inductive ReachableUncalibrated : ChipTemperature → Prop where
  | init : ReachableUncalibrated ChipTemperature.mkUncalibrated
  | step (ct : ChipTemperature) (sample : Nat) :
      ReachableUncalibrated ct → sample < 65536 →
      ReachableUncalibrated (ct.loop sample)

theorem reachable_inv (ct : ChipTemperature) (h : ReachableUncalibrated ct) :
    ct._calPoint1 = ⟨0, 0⟩ ∧ ct._calPoint2 = ⟨1, 1⟩ ∧
    ct._samples.length = 5 ∧ ∀ x ∈ ct._samples, x < 65536 := by
  induction h with
  | init =>
    refine ⟨rfl, rfl, rfl, ?_⟩
    intro x hx
    simp [ChipTemperature.mkUncalibrated, CHIPTEMP_SAMPLES_FOR_AVG] at hx
    omega
  | step ct s hr hs ih =>
    obtain ⟨i1, i2, il, ib⟩ := ih
    refine ⟨i1, i2, ?_, ?_⟩
    · simp [ChipTemperature.loop, il]
    · intro x hx
      simp only [ChipTemperature.loop] at hx
      rcases List.mem_or_eq_of_mem_set hx with hx | hx
      · exact ib x hx
      · omega

theorem sum_div_five_lt (M : List Nat) (hlen : M.length = 5)
    (hb : ∀ x ∈ M, x < 65536) : M.sum / 5 < 65536 := by
  obtain ⟨a, b, c, d, e, hM⟩ := exists_five_elems M hlen
  subst hM
  have ha := hb a (by simp)
  have hb2 := hb b (by simp)
  have hc := hb c (by simp)
  have hd := hb d (by simp)
  have he := hb e (by simp)
  simp only [List.sum_cons, List.sum_nil]
  omega

/-- C6: a tracker built by the no-argument constructor satisfies
`getK() == getRaw()` in every reachable state: the identity calibration
makes the interpolation formula collapse to the raw average (which always
fits in uint16, so the final cast is lossless). -/
theorem uncalibrated_getK_eq_getRaw (ct : ChipTemperature)
    (h : ReachableUncalibrated ct) : ct.getK = ct.getRaw := by
  obtain ⟨i1, i2, il, ib⟩ := reachable_inv ct h
  have hraw : ct.getRaw < 65536 := by
    unfold ChipTemperature.getRaw
    simp only [CHIPTEMP_SAMPLES_FOR_AVG]
    exact sum_div_five_lt _ il ib
  unfold ChipTemperature.getK
  rw [i1, i2]
  unfold getKofRaw
  simp
  exact uint16Cast_coe _ hraw

/-- Witness for C6: the uncalibrated tracker after the five ticks
[10, 12, 11, 13, 9]; getK equals getRaw, which is 11 there. -/
theorem uncalibrated_getK_eq_getRaw_witness :
    ReachableUncalibrated (applyLoops ChipTemperature.mkUncalibrated [10, 12, 11, 13, 9]) ∧
    (applyLoops ChipTemperature.mkUncalibrated [10, 12, 11, 13, 9]).getK
      = (applyLoops ChipTemperature.mkUncalibrated [10, 12, 11, 13, 9]).getRaw ∧
    (applyLoops ChipTemperature.mkUncalibrated [10, 12, 11, 13, 9]).getRaw = 11 := by
  have hr : ReachableUncalibrated
      (applyLoops ChipTemperature.mkUncalibrated [10, 12, 11, 13, 9]) := by
    show ReachableUncalibrated
      (((((ChipTemperature.mkUncalibrated.loop 10).loop 12).loop 11).loop 13).loop 9)
    exact ReachableUncalibrated.step _ _ (ReachableUncalibrated.step _ _
      (ReachableUncalibrated.step _ _ (ReachableUncalibrated.step _ _
        (ReachableUncalibrated.step _ _ ReachableUncalibrated.init
          (by omega)) (by omega)) (by omega)) (by omega)) (by omega)
  exact ⟨hr, uncalibrated_getK_eq_getRaw _ hr, by decide⟩

-- Claim C8

/-- One observable hardware action of `chipTemperatureReadRaw`
(ChipTemperature.cpp), in program order. -/
inductive AdcEvent where
  | writeAdmux (v : Nat)
  | orMux5IntoAdcsrb
  | startConversion
  | pollWaitConversionDone
  | readAdcl (v : Nat)
  | readAdch (v : Nat)
  | delayMicroseconds (us : Nat)
deriving DecidableEq

/-- `chipTemperatureReadRaw` (ChipTemperature.cpp lines 14-112) against a
hardware oracle `adc` giving, for each conversion in order, the (ADCL, ADCH)
byte pair latched at its completion.  Returns the C return value
`(high << 8) | low` assembled from the second conversion, together with the
ordered trace of hardware actions the function performs: program ADMUX to
0xC7 (internal 2.56 V reference, temperature channel low bits), set MUX5,
start and poll-wait the first conversion, read its low then high byte,
busy-delay 2 microseconds, start and poll-wait the second conversion, read
its low then high byte. -/
def chipTemperatureReadRaw (adc : Nat → Nat × Nat) : Nat × List AdcEvent :=
  (((adc 1).2 <<< 8) ||| (adc 1).1,
    [AdcEvent.writeAdmux 0xC7, AdcEvent.orMux5IntoAdcsrb,
     AdcEvent.startConversion, AdcEvent.pollWaitConversionDone,
     AdcEvent.readAdcl (adc 0).1, AdcEvent.readAdch (adc 0).2,
     AdcEvent.delayMicroseconds 2,
     AdcEvent.startConversion, AdcEvent.pollWaitConversionDone,
     AdcEvent.readAdcl (adc 1).1, AdcEvent.readAdch (adc 1).2])

/-- C8: each call triggers exactly two ADC conversions, with the fixed
2-microsecond settling delay strictly between the two conversion starts;
the returned value is the second conversion's result assembled as
`(high << 8) | low` with the low byte read before the high byte, and for a
10-bit converter (low byte < 256, high byte < 4) it lies in [0, 1023]. -/
theorem readRaw_two_conversions (adc : Nat → Nat × Nat)
    (hlow : (adc 1).1 < 256) (hhigh : (adc 1).2 < 4) :
    (chipTemperatureReadRaw adc).1 = 256 * (adc 1).2 + (adc 1).1 ∧
    (chipTemperatureReadRaw adc).1 ≤ 1023 ∧
    (chipTemperatureReadRaw adc).2.count AdcEvent.startConversion = 2 ∧
    ∃ A B C : List AdcEvent,
      (chipTemperatureReadRaw adc).2
        = A ++ [AdcEvent.startConversion] ++ B ++ [AdcEvent.startConversion] ++ C ∧
      AdcEvent.delayMicroseconds 2 ∈ B ∧
      C = [AdcEvent.pollWaitConversionDone,
           AdcEvent.readAdcl (adc 1).1, AdcEvent.readAdch (adc 1).2] := by
  have h28 : (2 : Nat) ^ 8 = 256 := by norm_num
  have hres : (chipTemperatureReadRaw adc).1 = 256 * (adc 1).2 + (adc 1).1 := by
    show ((adc 1).2 <<< 8) ||| (adc 1).1 = 256 * (adc 1).2 + (adc 1).1
    rw [Nat.shiftLeft_eq, h28, Nat.mul_comm]
    exact (Nat.mul_add_lt_is_or ((h28 ▸ hlow : (adc 1).1 < 2 ^ 8)) _).symm
  refine ⟨hres, by rw [hres]; omega, ?_, ?_⟩
  · simp [chipTemperatureReadRaw, List.count_cons]
  · refine ⟨[AdcEvent.writeAdmux 0xC7, AdcEvent.orMux5IntoAdcsrb],
      [AdcEvent.pollWaitConversionDone, AdcEvent.readAdcl (adc 0).1,
       AdcEvent.readAdch (adc 0).2, AdcEvent.delayMicroseconds 2],
      [AdcEvent.pollWaitConversionDone, AdcEvent.readAdcl (adc 1).1,
       AdcEvent.readAdch (adc 1).2], rfl, by simp, rfl⟩

/-- Witness for C8: a hardware oracle always latching (low, high) =
(44, 2); the call returns 2·256 + 44 = 556 ≤ 1023. -/
theorem readRaw_two_conversions_witness :
    ((44 : Nat) < 256 ∧ (2 : Nat) < 4) ∧
    (chipTemperatureReadRaw (fun _ => (44, 2))).1 = 256 * 2 + 44 ∧
    (chipTemperatureReadRaw (fun _ => (44, 2))).1 ≤ 1023 := by
  have h := readRaw_two_conversions (fun _ => (44, 2)) (by decide) (by decide)
  exact ⟨⟨by decide, by decide⟩, h.1, h.2.1⟩

-- Claim C9

/-- Wrap to signed 32-bit two's complement — `long` on the AVR target. -/
def wrap32 (x : Int) : Int := (x + 2147483648) % 4294967296 - 2147483648

/-- x is representable in a signed 32-bit `long`. -/
def fitsInLong (x : Int) : Prop := -2147483648 ≤ x ∧ x < 2147483648

theorem wrap32_fits (x : Int) (h : fitsInLong x) : wrap32 x = x := by
  obtain ⟨h1, h2⟩ := h
  unfold wrap32
  rw [Int.emod_eq_of_lt (by omega) (by omega)]
  ring

/-- The getK body with every `long` arithmetic result reduced to signed
32 bits, as the AVR hardware would hold it. -/
def getKofRawWrapped (p1 p2 : ChipTempCalPointK) (raw : Nat) : Nat :=
  uint16Cast (wrap32 ((wrap32 ((wrap32 ((wrap32 ((raw : Int) - (p1._hwReading : Int)))
          * (wrap32 ((p2._tempK : Int) - (p1._tempK : Int))))).tdiv
        (wrap32 ((p2._hwReading : Int) - (p1._hwReading : Int)))))
    + (p1._tempK : Int)))

/-- Every intermediate value of the getK computation, in evaluation order:
the three `long` differences, the product, the quotient, and the final sum
before the uint16 cast. -/
def getKIntermediates (p1 p2 : ChipTempCalPointK) (raw : Nat) : List Int :=
  [(raw : Int) - (p1._hwReading : Int),
   (p2._tempK : Int) - (p1._tempK : Int),
   ((raw : Int) - (p1._hwReading : Int)) * ((p2._tempK : Int) - (p1._tempK : Int)),
   (p2._hwReading : Int) - (p1._hwReading : Int),
   (((raw : Int) - (p1._hwReading : Int)) * ((p2._tempK : Int) - (p1._tempK : Int))).tdiv
     ((p2._hwReading : Int) - (p1._hwReading : Int)),
   (((raw : Int) - (p1._hwReading : Int)) * ((p2._tempK : Int) - (p1._tempK : Int))).tdiv
     ((p2._hwReading : Int) - (p1._hwReading : Int)) + (p1._tempK : Int)]

/-- C9: for every raw average and hardware readings in [0, 1023] and
reference temperatures in uint16 range, every intermediate of getK's
computation fits in the signed 32-bit `long`, so the computation with
32-bit wrapping equals the exact unbounded-integer evaluation (both
reduced to uint16 at the end): no overflow occurs. -/
theorem getK_no_overflow (p1 p2 : ChipTempCalPointK) (raw : Nat)
    (hraw : raw ≤ 1023) (hw1 : p1._hwReading ≤ 1023) (hw2 : p2._hwReading ≤ 1023)
    (ht1 : p1._tempK < 65536) (ht2 : p2._tempK < 65536) :
    (∀ x ∈ getKIntermediates p1 p2 raw, fitsInLong x) ∧
    getKofRawWrapped p1 p2 raw = getKofRaw p1 p2 raw := by
  set d1 := (raw : Int) - (p1._hwReading : Int) with hd1
  set dt := (p2._tempK : Int) - (p1._tempK : Int) with hdt
  set dh := (p2._hwReading : Int) - (p1._hwReading : Int) with hdh
  have b1 : d1.natAbs ≤ 1023 := by omega
  have b2 : dt.natAbs ≤ 65535 := by omega
  have b3 : dh.natAbs ≤ 1023 := by omega
  have bprod : (d1 * dt).natAbs ≤ 67042305 := by
    rw [Int.natAbs_mul]
    calc d1.natAbs * dt.natAbs ≤ 1023 * 65535 := Nat.mul_le_mul b1 b2
      _ = 67042305 := by norm_num
  have bq : ((d1 * dt).tdiv dh).natAbs ≤ 67042305 := by
    rw [Int.natAbs_tdiv]
    calc (d1 * dt).natAbs / dh.natAbs ≤ (d1 * dt).natAbs := Nat.div_le_self _ _
      _ ≤ 67042305 := bprod
  constructor
  · intro x hx
    unfold getKIntermediates at hx
    unfold fitsInLong
    simp only [List.mem_cons, List.not_mem_nil, or_false] at hx
    rcases hx with rfl | rfl | rfl | rfl | rfl | rfl <;>
      simp only [← hd1, ← hdt, ← hdh] <;> omega
  · unfold getKofRawWrapped getKofRaw
    rw [wrap32_fits d1 (by unfold fitsInLong; omega),
        wrap32_fits dt (by unfold fitsInLong; omega),
        wrap32_fits dh (by unfold fitsInLong; omega),
        wrap32_fits (d1 * dt) (by unfold fitsInLong; omega),
        wrap32_fits ((d1 * dt).tdiv dh) (by unfold fitsInLong; omega),
        wrap32_fits ((d1 * dt).tdiv dh + (p1._tempK : Int)) (by unfold fitsInLong; omega)]

/-- Witness for C9: the calibration (273,300), (373,400) at raw average
350. -/
theorem getK_no_overflow_witness :
    ((350 : Nat) ≤ 1023 ∧ (300 : Nat) ≤ 1023 ∧ (400 : Nat) ≤ 1023 ∧
      (273 : Nat) < 65536 ∧ (373 : Nat) < 65536) ∧
    (∀ x ∈ getKIntermediates ⟨273, 300⟩ ⟨373, 400⟩ 350, fitsInLong x) ∧
    getKofRawWrapped ⟨273, 300⟩ ⟨373, 400⟩ 350 = getKofRaw ⟨273, 300⟩ ⟨373, 400⟩ 350 :=
  ⟨⟨by decide, by decide, by decide, by decide, by decide⟩,
    getK_no_overflow ⟨273, 300⟩ ⟨373, 400⟩ 350 (by decide) (by decide) (by decide)
      (by decide) (by decide)⟩
